import Mathlib

/-!
Shallow embedding of the compose-lifecycle client of the koji-osbuild
builder plugin (`src/plugins/builder/osbuild.py`), together with theorems
settling the specification claims about it.

The embedding follows the Python source:
* `Repository`, `ImageRequest`, `ComposeRequest` with their `as_dict`
  serialization (Python's `string.Template.substitute` is modelled by
  `substChars`, and `json.dumps` by `jsonDumps`);
* `ImageStatus` (enum), `ComposeStatus` with `from_dict`, `is_success`,
  `is_finished`;
* the polling loop `Client.wait_for_compose`, modelled against a stream of
  poll responses (with fuel, so that non-termination is expressible), and
  an instrumented variant counting the number of poll calls;
* the task handler's terminal-status resolution (`OSBuildImage.handler`,
  lines 202-211).
Fallible Python code (exceptions) is modelled with `Except`/`Option`.
-/

namespace KojiOsbuild

/-! ## Status model: `ImageStatus` enum, `ComposeStatus` -/

/-- Python `str.lower()` on one character (ASCII range, which covers every
status value exchanged on this wire protocol). -/
def pyLowerChar (c : Char) : Char :=
  if 65 ≤ c.toNat ∧ c.toNat ≤ 90 then Char.ofNat (c.toNat + 32) else c

/-- Python `str.lower()`. -/
def pyLower (s : String) : String := String.mk (s.data.map pyLowerChar)

/-- The per-image status enum (`class ImageStatus(enum.Enum)`). -/
inductive ImageStatus where
  | SUCCESS
  | FAILED
  | PENDING
  | BUILDING
  | UPLOADING
  | WAITING
  | FINISHED
  | RUNNING
deriving DecidableEq, Repr

/-- Enum lookup `ImageStatus(value)`: returns the member whose value equals
the string, `none` when no member matches (Python raises `ValueError`). -/
def ImageStatus.ofValue (s : String) : Option ImageStatus :=
  if s = "success" then some .SUCCESS
  else if s = "failed" then some .FAILED
  else if s = "pending" then some .PENDING
  else if s = "building" then some .BUILDING
  else if s = "uploading" then some .UPLOADING
  else if s = "waiting" then some .WAITING
  else if s = "finished" then some .FINISHED
  else if s = "running" then some .RUNNING
  else none

/-- The closed per-image status vocabulary (the values of the enum). -/
def imageVocab : List String :=
  ["success", "failed", "pending", "building", "uploading", "waiting",
   "finished", "running"]

/-- The compose status value object. Python stores the status as a plain
(lowercased) string; the constructor performs no validation. -/
structure ComposeStatus where
  status : String
  images : List ImageStatus
  koji_task_id : String
deriving DecidableEq, Repr

/-- The top-level compose status vocabulary: the class constants
`SUCCESS` .. `FINISHED` of `ComposeStatus`. -/
def composeVocab : List String :=
  ["success", "failed", "pending", "running", "waiting", "registering",
   "finished"]

/-- A status payload as consumed by `ComposeStatus.from_dict`: the fields
the code reads (`data["status"]`, `data["koji_task_id"]`, and the
`"status"` field of each element of `data["image_statuses"]`). -/
structure StatusPayload where
  status : String
  koji_task_id : String
  image_statuses : List String
deriving DecidableEq, Repr

/-- A parse failure (Python raises `ValueError` from the enum lookup; the
spec names it `ParseError`). -/
inductive ParseErr where
  | parseError
deriving DecidableEq, Repr

/-- The image-status list comprehension
`[ImageStatus(s["status"].lower()) for s in data["image_statuses"]]`,
evaluated left to right; the first unknown value aborts the whole
comprehension with an error, producing no partial list. -/
def parseImages : List String → Option (List ImageStatus)
  | [] => some []
  | s :: rest =>
    match ImageStatus.ofValue (pyLower s) with
    | none => none
    | some v => (parseImages rest).map (fun tl => v :: tl)

/-- The classmethod `ComposeStatus.from_dict`: lowercases the top-level
status (without validating it), parses every per-image status through the
`ImageStatus` enum, and builds the `ComposeStatus`. -/
def ComposeStatus.from_dict (data : StatusPayload) :
    Except ParseErr ComposeStatus :=
  let status := pyLower data.status
  let koji_task_id := data.koji_task_id
  match parseImages data.image_statuses with
  | none => .error .parseError
  | some images => .ok ⟨status, images, koji_task_id⟩

/-- The property `ComposeStatus.is_success`:
`self.status in [self.SUCCESS, self.FINISHED]`. -/
def ComposeStatus.is_success (cs : ComposeStatus) : Bool :=
  ["success", "finished"].contains cs.status

/-- The property `ComposeStatus.is_finished`: true when `is_success`,
otherwise `self.status in [self.FAILED]`. -/
def ComposeStatus.is_finished (cs : ComposeStatus) : Bool :=
  if cs.is_success then true
  else ["failed"].contains cs.status

/-! ## Python `string.Template.substitute` -/

/-- Opening brace character, `Char.ofNat 123`. -/
def lbrace : Char := Char.ofNat 123

/-- Closing brace character, `Char.ofNat 125`. -/
def rbrace : Char := Char.ofNat 125

/-- Start character of a template identifier: the default `idpattern` of
`string.Template` is ASCII `[_a-zA-Z][_a-zA-Z0-9]*`. -/
def isIdentStart (c : Char) : Bool := c = '_' || c.isAlpha

/-- Continuation character of a template identifier. -/
def isIdentCont (c : Char) : Bool := isIdentStart c || c.isDigit

/-- Longest prefix of identifier-continuation characters, with the rest. -/
def takeIdent : List Char → List Char × List Char
  | [] => ([], [])
  | c :: cs =>
    if isIdentCont c then
      let p := takeIdent cs
      (c :: p.1, p.2)
    else ([], c :: cs)

theorem takeIdent_snd_length_le (l : List Char) :
    (takeIdent l).2.length ≤ l.length := by
  induction l with
  | nil => simp [takeIdent]
  | cons c cs ih =>
    simp only [takeIdent]
    split
    · simpa using Nat.le_succ_of_le ih
    · simp

/-- Errors raised by `Template.substitute`: `KeyError` when the mapping
lacks a referenced identifier, `ValueError` on an invalid `$` placeholder.
The spec groups both under `TemplateError`. -/
inductive TemplateErr where
  | keyError (name : String)
  | valueError
deriving DecidableEq, Repr

/-- Python `Template(template).substitute(mapping)` on the character list
of the template: `$$` is a literal dollar, `$ident` and `$\x7bident\x7d`
substitute `mapping ident` (`KeyError` when absent), any other `$` raises
`ValueError`. -/
def substChars (m : String → Option String) :
    List Char → Except TemplateErr (List Char)
  | [] => .ok []
  | c :: rest =>
    if c = '$' then
      match rest with
      | [] => .error .valueError
      | d :: rest2 =>
        if d = '$' then
          (substChars m rest2).map (fun t => '$' :: t)
        else if d = lbrace then
          let idc := (takeIdent rest2).1
          let rest3 := (takeIdent rest2).2
          if idc = [] then .error .valueError
          else if ¬ isIdentStart (idc.headD ' ') then .error .valueError
          else if rest3.headD ' ' ≠ rbrace then .error .valueError
          else
            match m (String.mk idc) with
            | none => .error (.keyError (String.mk idc))
            | some v => (substChars m rest3.tail).map (fun t => v.data ++ t)
        else if isIdentStart d then
          let name := String.mk (d :: (takeIdent rest2).1)
          match m name with
          | none => .error (.keyError name)
          | some v =>
            (substChars m (takeIdent rest2).2).map (fun t => v.data ++ t)
        else .error .valueError
    else
      (substChars m rest).map (fun t => c :: t)
termination_by l => l.length
decreasing_by
  all_goals simp_wf
  all_goals try omega
  all_goals
    have h2 := takeIdent_snd_length_le cs
  all_goals omega

/-- String-level `Template.substitute`. -/
def substituteTemplate (m : String → Option String) (tmpl : String) :
    Except TemplateErr String :=
  (substChars m tmpl.data).map String.mk

/-! ## JSON values and `json.dumps` -/

/-- JSON values, as far as this plugin produces them (strings, arrays,
objects with insertion-ordered keys — Python dicts preserve insertion
order and `json.dumps` serializes keys in that order). -/
inductive Json where
  | str (s : String)
  | arr (elems : List Json)
  | obj (fields : List (String × Json))

/-- Lowercase hexadecimal digit, as used by `json.dumps` unicode escapes. -/
def hexDigit (n : Nat) : Char :=
  if n < 10 then Char.ofNat (48 + n) else Char.ofNat (87 + n)

/-- A `\uXXXX` escape of a 16-bit code unit. -/
def uEscape (n : Nat) : List Char :=
  ['\\', 'u', hexDigit (n / 4096 % 16), hexDigit (n / 256 % 16),
   hexDigit (n / 16 % 16), hexDigit (n % 16)]

/-- Escaping of one character inside a JSON string, following
`json.dumps` with its default `ensure_ascii=True`: printable ASCII other
than `"` and `\` passes through, the usual two-character escapes for
`\b \t \n \f \r`, and `\uXXXX` (with surrogate pairs beyond the BMP) for
everything else. -/
def escChar (c : Char) : List Char :=
  if c = '"' then ['\\', '"']
  else if c = '\\' then ['\\', '\\']
  else if c = Char.ofNat 8 then ['\\', 'b']
  else if c = '\t' then ['\\', 't']
  else if c = '\n' then ['\\', 'n']
  else if c = Char.ofNat 12 then ['\\', 'f']
  else if c = '\r' then ['\\', 'r']
  else if 32 ≤ c.toNat ∧ c.toNat ≤ 126 then [c]
  else if c.toNat < 65536 then uEscape c.toNat
  else
    let v := c.toNat - 65536
    uEscape (55296 + v / 1024) ++ uEscape (56320 + v % 1024)

/-- Serialization of a JSON string literal. -/
def dumpString (s : String) : String :=
  String.mk ('"' :: (s.data.flatMap escChar) ++ ['"'])

/-- Python `json.dumps` with its defaults: item separator `", "`, key
separator `": "`, `ensure_ascii` string escaping. -/
def jsonDumps : Json → String
  | .str s => dumpString s
  | .arr elems =>
    "[" ++ String.intercalate ", "
      (elems.attach.map (fun e => jsonDumps e.1)) ++ "]"
  | .obj fields =>
    String.mk [lbrace] ++ String.intercalate ", "
      (fields.attach.map (fun f => dumpString f.1.1 ++ ": " ++ jsonDumps f.1.2))
      ++ String.mk [rbrace]
decreasing_by
  · have := List.sizeOf_lt_of_mem e.2
    simp only [Json.arr.sizeOf_spec]
    omega
  · have h1 := List.sizeOf_lt_of_mem f.2
    have h2 : sizeOf f.1.2 < sizeOf f.1 := by
      obtain ⟨a, b⟩ := f.1
      simp only [Prod.mk.sizeOf_spec]
      omega
    simp only [Json.obj.sizeOf_spec]
    omega

/-! ## Request data model and serialization -/

/-- Python truthiness of an optional string (`if self.gpgkey:`): `None`
and the empty string are falsy. -/
def pyTruthy : Option String → Bool
  | none => false
  | some s => !s.data.isEmpty

/-- A package repository reference (`class Repository`): a baseurl
template and an optional gpg key (default `None`). -/
structure Repository where
  baseurl : String
  gpgkey : Option String := none
deriving DecidableEq, Repr

/-- The template mapping used by `Repository.as_dict`: exactly the one
keyword argument `arch=arch` of `tmp.substitute`. -/
def archMapping (arch : String) : String → Option String :=
  fun name => if name = "arch" then some arch else none

/-- The method `Repository.as_dict(arch)`: substitutes the architecture
into the baseurl template, returns `\x7b"baseurl": url\x7d`, adding
`"gpgkey"` only when `self.gpgkey` is truthy. The result is the ordered
field list of the Python dict. -/
def Repository.as_dict (r : Repository) (arch : String) :
    Except TemplateErr (List (String × Json)) :=
  (substituteTemplate (archMapping arch) r.baseurl).map (fun url =>
    if pyTruthy r.gpgkey then
      [("baseurl", .str url), ("gpgkey", .str (r.gpgkey.getD ""))]
    else
      [("baseurl", .str url)])

/-- One (architecture, format) build unit (`class ImageRequest`). -/
structure ImageRequest where
  architecture : String
  image_type : String
  repositories : List Repository
deriving DecidableEq, Repr

/-- List comprehension mapping a fallible function left to right; the
first exception aborts the whole comprehension. -/
def mapExcept {α β ε : Type} (f : α → Except ε β) :
    List α → Except ε (List β)
  | [] => .ok []
  | a :: rest => do
    let b ← f a
    let tl ← mapExcept f rest
    return b :: tl

/-- The method `ImageRequest.as_dict`: architecture, image type, and each
repository resolved against this request's architecture. -/
def ImageRequest.as_dict (ir : ImageRequest) : Except TemplateErr Json :=
  (mapExcept (fun rp => rp.as_dict ir.architecture) ir.repositories).map
    (fun repos =>
      .obj [("architecture", .str ir.architecture),
            ("image_type", .str ir.image_type),
            ("repositories", .arr (repos.map Json.obj))])

/-- A submittable compose request (`class ComposeRequest`). -/
structure ComposeRequest where
  distribution : String
  image_requests : List ImageRequest
  koji : String
deriving DecidableEq, Repr

/-- The method `ComposeRequest.as_dict`: distribution, the koji server
wrapped in an object, and the serialized image requests, in that key
order. -/
def ComposeRequest.as_dict (cr : ComposeRequest) : Except TemplateErr Json :=
  (mapExcept ImageRequest.as_dict cr.image_requests).map (fun imgs =>
    .obj [("distribution", .str cr.distribution),
          ("koji", .obj [("server", .str cr.koji)]),
          ("image_requests", .arr imgs)])

/-- The method `ComposeRequest.to_json`: `json.dumps(self.as_dict())`. -/
def ComposeRequest.to_json (cr : ComposeRequest) :
    Except TemplateErr String :=
  cr.as_dict.map jsonDumps

/-! ## Polling loop `Client.wait_for_compose`

The Python loop is `while True: status = self.compose_status(cid);
if status.is_finished: return status; time.sleep(sleep_time)`. We model
the sequence of poll responses for the compose id as a stream
`f : Nat → ComposeStatus` (poll number `k` yields `f k`) and the loop with
explicit fuel, so that non-termination on a never-terminal stream is
expressible: `none` means the loop has not returned within `fuel` polls. -/

/-- The wait loop with `fuel` remaining polls, about to perform poll
number `k`. -/
def wait_for_compose (f : Nat → ComposeStatus) :
    Nat → Nat → Option ComposeStatus
  | 0, _ => none
  | fuel + 1, k =>
    if (f k).is_finished then some (f k)
    else wait_for_compose f fuel (k + 1)

/-- The wait loop instrumented with the number of poll calls performed:
`some (s, n)` means the loop returned status `s` after exactly `n` calls
to `compose_status`. -/
def wait_for_compose_count (f : Nat → ComposeStatus) :
    Nat → Nat → Option (ComposeStatus × Nat)
  | 0, _ => none
  | fuel + 1, k =>
    if (f k).is_finished then some (f k, k + 1)
    else wait_for_compose_count f fuel (k + 1)

/-! ## Task handler terminal resolution and request builder -/

/-- The map returned by `OSBuildImage.handler`: always a `koji_builds`
list, plus a `build` entry only on success. -/
structure HandlerResult where
  koji_builds : List String
  build : Option String
deriving DecidableEq, Repr

/-- The tail of `OSBuildImage.handler` (lines 202-211): given the compose
id and the terminal status from `wait_for_compose`, return
`\x7b'koji_builds': []\x7d` when the compose did not succeed (a normal
return, not an exception), and
`\x7b'koji_builds': [], 'build': f'\x7bcid\x7d-1-1'\x7d` on success. -/
def handler_resolve (cid : String) (status : ComposeStatus) : HandlerResult :=
  if !status.is_success then
    ⟨[], none⟩
  else
    ⟨[], some (cid ++ "-1-1")⟩

/-- The image-request accumulation loop shared by `OSBuildImage.handler`
(lines 187-190) and `compose_cmd` (lines 235-238):
`for fmt in formats: for arch in arches: images.append(ImageRequest(arch,
fmt, repos))`, starting from the empty list. -/
def build_image_requests (formats arches : List String)
    (repos : List Repository) : List ImageRequest :=
  formats.foldl
    (fun images fmt =>
      arches.foldl
        (fun images2 arch => images2 ++ [ImageRequest.mk arch fmt repos])
        images)
    []

/-- Specification-side builder: one `ImageRequest` per (format,
architecture) pair, formats as the outer loop. Used to compare the loop
above against the spec's wording. -/
def build_image_requests_spec (formats arches : List String)
    (repos : List Repository) : List ImageRequest :=
  formats.flatMap (fun fmt =>
    arches.map (fun arch => ImageRequest.mk arch fmt repos))

/-! ## Specification-side definitions

These definitions follow the spec's words, for comparison against the
source-derived definitions above: the JSON shape
`\x7bdistribution, koji:\x7bserver\x7d, image_requests:[...]\x7d` of §3,
and the template/placeholder view of a baseurl used by §4.1 and §8. -/

/-- Shape of a serialized repository: exactly `baseurl` plus an optional
`gpgkey`, both strings, in that order. -/
def repoShape : List (String × Json) → Bool
  | [("baseurl", .str _)] => true
  | [("baseurl", .str _), ("gpgkey", .str _)] => true
  | _ => false

/-- Shape of a serialized image request:
`\x7barchitecture, image_type, repositories:[...]\x7d`. -/
def imageReqShape : Json → Bool
  | .obj [("architecture", .str _), ("image_type", .str _),
          ("repositories", .arr repos)] =>
    repos.all (fun r =>
      match r with
      | .obj kvs => repoShape kvs
      | _ => false)
  | _ => false

/-- Shape of a serialized compose request:
`\x7bdistribution, koji:\x7bserver\x7d, image_requests:[...]\x7d`. -/
def composeReqShape : Json → Bool
  | .obj [("distribution", .str _), ("koji", .obj [("server", .str _)]),
          ("image_requests", .arr imgs)] =>
    imgs.all imageReqShape
  | _ => false

/-- A baseurl template viewed as a list of segments: literal text and
braced placeholders `$\x7bname\x7d`. -/
inductive TemplateSeg where
  | lit (s : String)
  | var (name : String)
deriving DecidableEq, Repr

/-- Characters a segment contributes to the template text. -/
def renderSegChars : TemplateSeg → List Char
  | .lit s => s.data
  | .var name => '$' :: lbrace :: name.data ++ [rbrace]

/-- The template text of a segment list. -/
def renderChars (segs : List TemplateSeg) : List Char :=
  segs.flatMap renderSegChars

/-- The template text of a segment list, as a string. -/
def renderTemplate (segs : List TemplateSeg) : String :=
  String.mk (renderChars segs)

/-- Specification-side substitution: each placeholder replaced by the
architecture, literals untouched, nothing else rewritten. -/
def substSpecChars (a : String) : List TemplateSeg → List Char
  | [] => []
  | .lit s :: rest => s.data ++ substSpecChars a rest
  | .var _ :: rest => a.data ++ substSpecChars a rest

/-- Specification-side substitution, as a string. -/
def substSpecStr (a : String) (segs : List TemplateSeg) : String :=
  String.mk (substSpecChars a segs)

/-- A well-formed template identifier: `[_a-zA-Z][_a-zA-Z0-9]*`. -/
def validIdent (s : String) : Bool :=
  match s.data with
  | [] => false
  | c :: cs => isIdentStart c && cs.all isIdentCont

/-- Well-formedness of a segment: literal text holds no `$`, a placeholder
name is a valid identifier. -/
def segWF : TemplateSeg → Bool
  | .lit s => !s.data.contains '$'
  | .var name => validIdent name

/-! ## Helper lemmas -/

theorem ImageStatus.ofValue_eq_none_iff (s : String) :
    ImageStatus.ofValue s = none ↔ s ∉ imageVocab := by
  unfold ImageStatus.ofValue imageVocab
  split_ifs with h1 h2 h3 h4 h5 h6 h7 h8 <;> simp_all

theorem parseImages_eq_none_of_bad {l : List String} {s : String}
    (hmem : s ∈ l) (hbad : ImageStatus.ofValue (pyLower s) = none) :
    parseImages l = none := by
  induction l with
  | nil => cases hmem
  | cons a rest ih =>
    rcases List.mem_cons.mp hmem with h | h
    · subst h
      unfold parseImages
      rw [hbad]
    · unfold parseImages
      cases ImageStatus.ofValue (pyLower a) with
      | none => rfl
      | some v => rw [ih h]; rfl

theorem parseImages_isSome_of_vocab {l : List String}
    (h : ∀ s ∈ l, pyLower s ∈ imageVocab) :
    ∃ imgs, parseImages l = some imgs := by
  induction l with
  | nil => exact ⟨[], rfl⟩
  | cons a rest ih =>
    have ha : pyLower a ∈ imageVocab := h a (List.mem_cons_self a rest)
    have hv : ImageStatus.ofValue (pyLower a) ≠ none := fun hn =>
      ((ImageStatus.ofValue_eq_none_iff _).mp hn) ha
    obtain ⟨imgs, himgs⟩ := ih (fun s hs => h s (List.mem_cons_of_mem _ hs))
    cases hov : ImageStatus.ofValue (pyLower a) with
    | none => exact absurd hov hv
    | some v =>
      refine ⟨v :: imgs, ?_⟩
      unfold parseImages
      rw [hov, himgs]
      rfl

/-! ## Claim theorems -/

/-- C1, counterexample: a payload whose top-level status `"BOGUS"`
lowercases to `"bogus"`, a value outside the compose-status vocabulary, is
nevertheless parsed successfully by `ComposeStatus.from_dict` — no
`ParseError` is raised, refuting the claim that unknown top-level status
values are rejected. -/
theorem C1_counterexample :
    pyLower "BOGUS" ∉ composeVocab ∧
    ComposeStatus.from_dict ⟨"BOGUS", "42", []⟩ =
      .ok ⟨"bogus", [], "42"⟩ :=
  ⟨by decide, by rfl⟩

/-- C1 (amended): `ComposeStatus.from_dict` lowercases the top-level
status but never validates it against the compose-status vocabulary: any
payload whose per-image statuses all lowercase into the per-image
vocabulary parses successfully, carrying the lowercased top-level status
verbatim — even one outside the vocabulary. Only per-image statuses are
strictly validated. -/
theorem C1_top_status_not_validated (p : StatusPayload)
    (h : ∀ s ∈ p.image_statuses, pyLower s ∈ imageVocab) :
    ∃ imgs, ComposeStatus.from_dict p =
      .ok ⟨pyLower p.status, imgs, p.koji_task_id⟩ := by
  obtain ⟨imgs, himgs⟩ := parseImages_isSome_of_vocab h
  refine ⟨imgs, ?_⟩
  unfold ComposeStatus.from_dict
  rw [himgs]

/-- C1, witness for the amended theorem: the payload with top-level status
`"BOGUS"` (outside the vocabulary) and one known per-image status parses
successfully. -/
theorem C1_top_status_not_validated_witness :
    ∃ imgs, ComposeStatus.from_dict ⟨"BOGUS", "42", ["SUCCESS"]⟩ =
      .ok ⟨pyLower "BOGUS", imgs, "42"⟩ :=
  C1_top_status_not_validated ⟨"BOGUS", "42", ["SUCCESS"]⟩
    (by intro s hs; simp at hs; subst hs; decide)

/-- C4: `is_success` is true exactly on status `success` or `finished`;
`is_finished` is true exactly on `success`, `failed` or `finished` (both
false on every other status value); `from_dict` stores the lowercased wire
status, so the payload with status `"FAILED"` parses to status
`"failed"` with `is_finished` true and `is_success` false. -/
theorem C4_status_predicates :
    (∀ cs : ComposeStatus,
      (cs.is_success = true ↔
        (cs.status = "success" ∨ cs.status = "finished")) ∧
      (cs.is_finished = true ↔
        (cs.status = "success" ∨ cs.status = "failed" ∨
         cs.status = "finished"))) ∧
    (∀ p cs, ComposeStatus.from_dict p = .ok cs →
      cs.status = pyLower p.status) ∧
    (∃ cs, ComposeStatus.from_dict ⟨"FAILED", "42", ["FAILED"]⟩ = .ok cs ∧
      cs.status = "failed" ∧ cs.is_finished = true ∧
      cs.is_success = false) := by
  refine ⟨?_, ?_, ?_⟩
  · intro cs
    constructor
    · unfold ComposeStatus.is_success
      simp [List.contains]
    · unfold ComposeStatus.is_finished ComposeStatus.is_success
      simp [List.contains]
      tauto
  · intro p cs h
    unfold ComposeStatus.from_dict at h
    cases hp : parseImages p.image_statuses with
    | none => rw [hp] at h; cases h
    | some imgs =>
      rw [hp] at h
      cases h
      rfl
  · exact ⟨⟨"failed", [.FAILED], "42"⟩, by rfl, rfl, by rfl, by rfl⟩

/-- C4, witness: the lowercasing conjunct applied at the `"FAILED"`
payload. -/
theorem C4_status_predicates_witness :
    (⟨"failed", [], "42"⟩ : ComposeStatus).status = pyLower "FAILED" :=
  C4_status_predicates.2.1 ⟨"FAILED", "42", []⟩ ⟨"failed", [], "42"⟩
    (by rfl)

/-- C6: the task handler's terminal resolution returns
`\x7bkoji_builds: [], build: "\x7bcid\x7d-1-1"\x7d` when the observed
terminal status has `is_success`, and `\x7bkoji_builds: []\x7d` (a normal
return value, `handler_resolve` being a total function, not an exception)
otherwise. -/
theorem C6_handler_terminal_resolution (cid : String) (s : ComposeStatus) :
    (s.is_success = true →
      handler_resolve cid s = ⟨[], some (cid ++ "-1-1")⟩) ∧
    (s.is_success = false → handler_resolve cid s = ⟨[], none⟩) := by
  unfold handler_resolve
  constructor <;> intro h <;> simp [h]

/-- C6, witness: a successful compose with id `"c1"` resolves to
`\x7bkoji_builds: [], build: "c1-1-1"\x7d`. -/
theorem C6_handler_terminal_resolution_witness :
    handler_resolve "c1" ⟨"success", [], "42"⟩ = ⟨[], some "c1-1-1"⟩ :=
  (C6_handler_terminal_resolution "c1" ⟨"success", [], "42"⟩).1 (by rfl)

/-- C8: a payload in which some per-image status lowercases outside the
per-image vocabulary makes `ComposeStatus.from_dict` fail with a
`ParseError`; the result is the error alone — no partial `ComposeStatus`
is produced (the parse is atomic by the `Except` return). -/
theorem C8_unknown_image_status_rejected (p : StatusPayload) (s : String)
    (hmem : s ∈ p.image_statuses) (hbad : pyLower s ∉ imageVocab) :
    ComposeStatus.from_dict p = .error .parseError := by
  have hnone : ImageStatus.ofValue (pyLower s) = none :=
    (ImageStatus.ofValue_eq_none_iff _).mpr hbad
  unfold ComposeStatus.from_dict
  rw [parseImages_eq_none_of_bad hmem hnone]

/-- C8, witness: a payload with the unknown per-image status `"weird"` is
rejected. -/
theorem C8_unknown_image_status_rejected_witness :
    ComposeStatus.from_dict ⟨"success", "1", ["weird"]⟩ =
      .error .parseError :=
  C8_unknown_image_status_rejected ⟨"success", "1", ["weird"]⟩ "weird"
    (by decide) (by decide)

/-- C10: a falsy `gpgkey` — `None` or the empty string — is omitted from
the serialized repository entirely: whenever `Repository.as_dict`
succeeds, the resulting dict is exactly `\x7bbaseurl\x7d` with no
`gpgkey` key. -/
theorem C10_falsy_gpgkey_omitted (r : Repository) (a : String)
    (hfalsy : pyTruthy r.gpgkey = false) :
    ∀ kvs, r.as_dict a = .ok kvs →
      ∃ url, kvs = [("baseurl", Json.str url)] := by
  intro kvs h
  unfold Repository.as_dict substituteTemplate at h
  cases hs : substChars (archMapping a) r.baseurl.data with
  | error e => rw [hs] at h; cases h
  | ok l =>
    rw [hs] at h
    simp only [Except.map, hfalsy, if_neg] at h
    cases h
    exact ⟨String.mk l, by simp⟩

/-- C10, witness: a repository whose `gpgkey` is the empty string (falsy
but present) serializes to a dict with only `baseurl`. -/
theorem C10_falsy_gpgkey_omitted_witness :
    ∃ url, ([("baseurl", Json.str "http://x")] : List (String × Json)) =
      [("baseurl", Json.str url)] :=
  C10_falsy_gpgkey_omitted ⟨"http://x", some ""⟩ "a" (by rfl)
    [("baseurl", Json.str "http://x")]
    (by simp [Repository.as_dict, substituteTemplate, substChars,
      archMapping, pyTruthy, Except.map])

/-! ## Wait loop lemmas -/

theorem wait_for_compose_sound (f : Nat → ComposeStatus) :
    ∀ fuel k s, wait_for_compose f fuel k = some s →
      ∃ n, k ≤ n ∧ f n = s ∧ (f n).is_finished = true ∧
        ∀ m, k ≤ m → m < n → (f m).is_finished = false := by
  intro fuel
  induction fuel with
  | zero => intro k s h; cases h
  | succ fuel ih =>
    intro k s h
    unfold wait_for_compose at h
    by_cases hf : (f k).is_finished = true
    · rw [if_pos hf] at h
      cases h
      exact ⟨k, le_refl k, rfl, hf, fun m hm1 hm2 => absurd hm1 (by omega)⟩
    · rw [if_neg hf] at h
      obtain ⟨n, hn1, hn2, hn3, hn4⟩ := ih (k + 1) s h
      refine ⟨n, by omega, hn2, hn3, ?_⟩
      intro m hm1 hm2
      rcases Nat.eq_or_lt_of_le hm1 with he | hlt
      · subst he; simpa using hf
      · exact hn4 m hlt hm2

theorem wait_for_compose_complete (f : Nat → ComposeStatus) :
    ∀ fuel k n, k ≤ n → n < k + fuel →
      (∀ m, k ≤ m → m < n → (f m).is_finished = false) →
      (f n).is_finished = true →
      wait_for_compose f fuel k = some (f n) := by
  intro fuel
  induction fuel with
  | zero => intro k n h1 h2; omega
  | succ fuel ih =>
    intro k n h1 h2 hpre hterm
    unfold wait_for_compose
    rcases Nat.eq_or_lt_of_le h1 with he | hlt
    · subst he
      rw [if_pos hterm]
    · have hk : (f k).is_finished = false := hpre k (le_refl k) hlt
      rw [hk]
      simp only [Bool.false_eq_true, if_false]
      exact ih (k + 1) n hlt (by omega)
        (fun m hm1 hm2 => hpre m (by omega) hm2) hterm

theorem wait_for_compose_none (f : Nat → ComposeStatus)
    (h : ∀ n, (f n).is_finished = false) :
    ∀ fuel k, wait_for_compose f fuel k = none := by
  intro fuel
  induction fuel with
  | zero => intro k; rfl
  | succ fuel ih =>
    intro k
    unfold wait_for_compose
    rw [h k]
    simpa using ih (k + 1)

/-- C2: the wait loop returns some status within some number of polls iff
some poll of the stream is terminal; whatever it returns is terminal and
is the response of the first terminal poll (no non-terminal status is
ever returned); and on a stream with no terminal poll, no amount of fuel
makes it return — the loop has no timeout or retry bound and never
returns. -/
theorem C2_wait_until_terminal (f : Nat → ComposeStatus) :
    ((∃ fuel s, wait_for_compose f fuel 0 = some s) ↔
      (∃ n, (f n).is_finished = true)) ∧
    (∀ fuel s, wait_for_compose f fuel 0 = some s →
      s.is_finished = true ∧
      ∃ n, f n = s ∧ (f n).is_finished = true ∧
        ∀ m, m < n → (f m).is_finished = false) ∧
    ((∀ n, (f n).is_finished = false) →
      ∀ fuel, wait_for_compose f fuel 0 = none) := by
  refine ⟨⟨?_, ?_⟩, ?_, ?_⟩
  · rintro ⟨fuel, s, h⟩
    obtain ⟨n, _, _, hn3, _⟩ := wait_for_compose_sound f fuel 0 s h
    exact ⟨n, hn3⟩
  · rintro ⟨n, hn⟩
    have hex : ∃ n, (f n).is_finished = true := ⟨n, hn⟩
    let N := Nat.find hex
    have hN : (f N).is_finished = true := Nat.find_spec hex
    have hpre : ∀ m, 0 ≤ m → m < N → (f m).is_finished = false := by
      intro m _ hm
      have := Nat.find_min hex hm
      simpa using this
    exact ⟨N + 1, f N,
      wait_for_compose_complete f (N + 1) 0 N (by omega) (by omega) hpre hN⟩
  · intro fuel s h
    obtain ⟨n, _, hn2, hn3, hn4⟩ := wait_for_compose_sound f fuel 0 s h
    exact ⟨hn2 ▸ hn3, n, hn2, hn3, fun m hm => hn4 m (by omega) hm⟩
  · intro h fuel
    exact wait_for_compose_none f h fuel 0

/-- C2, witness: on the constant `pending` stream (never terminal) the
loop has not returned after 4 polls. -/
theorem C2_wait_until_terminal_witness :
    wait_for_compose (fun _ => ⟨"pending", [], "1"⟩) 4 0 = none :=
  (C2_wait_until_terminal (fun _ => ⟨"pending", [], "1"⟩)).2.2
    (fun _ => rfl) 4

theorem wait_for_compose_count_complete (f : Nat → ComposeStatus) :
    ∀ fuel k n, k ≤ n → n < k + fuel →
      (∀ m, k ≤ m → m < n → (f m).is_finished = false) →
      (f n).is_finished = true →
      wait_for_compose_count f fuel k = some (f n, n + 1) := by
  intro fuel
  induction fuel with
  | zero => intro k n h1 h2; omega
  | succ fuel ih =>
    intro k n h1 h2 hpre hterm
    unfold wait_for_compose_count
    rcases Nat.eq_or_lt_of_le h1 with he | hlt
    · subst he
      rw [if_pos hterm]
    · have hk : (f k).is_finished = false := hpre k (le_refl k) hlt
      rw [hk]
      simp only [Bool.false_eq_true, if_false]
      exact ih (k + 1) n hlt (by omega)
        (fun m hm1 hm2 => hpre m (by omega) hm2) hterm

/-- C3: when poll number `k` (0-based) is the first to yield a terminal
status, the instrumented wait loop returns exactly that status having
performed exactly `k + 1` poll calls — so it performs one call per
response up to and including the first terminal one, and none after it. -/
theorem C3_wait_poll_count (f : Nat → ComposeStatus) (k fuel : Nat)
    (hpre : ∀ m, m < k → (f m).is_finished = false)
    (hterm : (f k).is_finished = true) (hfuel : k < fuel) :
    wait_for_compose_count f fuel 0 = some (f k, k + 1) :=
  wait_for_compose_count_complete f fuel 0 k (by omega) (by omega)
    (fun m _ hm => hpre m hm) hterm

/-- C3, witness: against the response sequence
`[pending, running, success]` the loop returns the `success` status after
exactly 3 poll calls. -/
theorem C3_wait_poll_count_witness :
    wait_for_compose_count
      (fun n => if n = 0 then ⟨"pending", [], "1"⟩
                else if n = 1 then ⟨"running", [], "1"⟩
                else ⟨"success", [], "1"⟩) 3 0 =
      some (⟨"success", [], "1"⟩, 3) :=
  C3_wait_poll_count
    (fun n => if n = 0 then ⟨"pending", [], "1"⟩
              else if n = 1 then ⟨"running", [], "1"⟩
              else ⟨"success", [], "1"⟩) 2 3
    (by intro m hm; interval_cases m <;> rfl) (by rfl) (by omega)

/-! ## Request builder lemmas -/

theorem foldl_append_singleton {α β : Type} (g : α → β) :
    ∀ (l : List α) (init : List β),
      l.foldl (fun acc x => acc ++ [g x]) init = init ++ l.map g := by
  intro l
  induction l with
  | nil => intro init; simp
  | cons a rest ih => intro init; simp [ih]

theorem foldl_append_block {α β : Type} (B : α → List β) :
    ∀ (l : List α) (init : List β),
      l.foldl (fun acc x => acc ++ B x) init = init ++ l.flatMap B := by
  intro l
  induction l with
  | nil => intro init; simp
  | cons a rest ih => intro init; simp [ih]

theorem build_image_requests_eq_spec (formats arches : List String)
    (repos : List Repository) :
    build_image_requests formats arches repos =
      build_image_requests_spec formats arches repos := by
  unfold build_image_requests build_image_requests_spec
  have hinner : ∀ (fmt : String) (init : List ImageRequest),
      arches.foldl
        (fun images2 arch => images2 ++ [ImageRequest.mk arch fmt repos])
        init =
        init ++ arches.map (fun arch => ImageRequest.mk arch fmt repos) :=
    fun fmt init => foldl_append_singleton _ arches init
  calc formats.foldl
        (fun images fmt =>
          arches.foldl
            (fun images2 arch => images2 ++ [ImageRequest.mk arch fmt repos])
            images) []
      = formats.foldl
          (fun images fmt =>
            images ++ arches.map (fun arch => ImageRequest.mk arch fmt repos))
          [] := by
        congr 1
        funext images fmt
        exact hinner fmt images
    _ = [] ++ formats.flatMap
          (fun fmt => arches.map (fun arch => ImageRequest.mk arch fmt repos)) :=
        foldl_append_block _ formats []
    _ = _ := by simp

theorem spec_length (arches : List String) (repos : List Repository) :
    ∀ formats : List String,
      (build_image_requests_spec formats arches repos).length =
        formats.length * arches.length := by
  intro formats
  induction formats with
  | nil => simp [build_image_requests_spec]
  | cons fmt rest ih =>
    unfold build_image_requests_spec at ih ⊢
    simp only [List.flatMap_cons, List.length_append, List.length_map, ih,
      List.length_cons]
    rw [Nat.succ_mul]
    omega

theorem spec_getElem (arches : List String) (repos : List Repository) :
    ∀ (formats : List String) (i j : Nat), i < formats.length →
      j < arches.length →
      (build_image_requests_spec formats arches repos)[i * arches.length + j]? =
        some (ImageRequest.mk (arches.getD j "") (formats.getD i "") repos) := by
  intro formats
  induction formats with
  | nil => intro i j hi hj; simp at hi
  | cons fmt rest ih =>
    intro i j hi hj
    unfold build_image_requests_spec
    simp only [List.flatMap_cons]
    cases i with
    | zero =>
      rw [List.getElem?_append_left (by simpa using hj)]
      simp [List.getElem?_eq_getElem hj, List.getD_eq_getElem arches "" hj]
    | succ i =>
      have hlen : (arches.map (fun arch => ImageRequest.mk arch fmt repos)).length =
          arches.length := by simp
      have hsm : (i + 1) * arches.length = i * arches.length + arches.length :=
        Nat.succ_mul i arches.length
      rw [List.getElem?_append_right (by rw [hlen]; omega)]
      have hrec := ih i j (by simpa using hi) hj
      unfold build_image_requests_spec at hrec
      rw [hlen]
      have harith : (i + 1) * arches.length + j - arches.length =
          i * arches.length + j := by omega
      rw [harith]
      exact hrec

/-- C9: the builder loop produces exactly one `ImageRequest` per
(format, architecture) pair, ordered with formats as the outer loop and
architectures as the inner loop (it equals the format-major flat map, has
length `|formats| * |arches|`, and the element at flat index
`i * |arches| + j` pairs format `i` with architecture `j`), and every
produced request carries the same repository list. -/
theorem C9_request_builder (formats arches : List String)
    (repos : List Repository) :
    build_image_requests formats arches repos =
      build_image_requests_spec formats arches repos ∧
    (build_image_requests formats arches repos).length =
      formats.length * arches.length ∧
    (∀ i j, i < formats.length → j < arches.length →
      (build_image_requests formats arches repos)[i * arches.length + j]? =
        some (ImageRequest.mk (arches.getD j "") (formats.getD i "") repos)) ∧
    (∀ req ∈ build_image_requests formats arches repos,
      req.repositories = repos) := by
  have hspec := build_image_requests_eq_spec formats arches repos
  refine ⟨hspec, ?_, ?_, ?_⟩
  · rw [hspec]
    exact spec_length arches repos formats
  · intro i j hi hj
    rw [hspec]
    exact spec_getElem arches repos formats i j hi hj
  · intro req hreq
    rw [hspec] at hreq
    unfold build_image_requests_spec at hreq
    simp only [List.mem_flatMap, List.mem_map] at hreq
    obtain ⟨fmt, _, arch, _, heq⟩ := hreq
    rw [← heq]

/-- C9, witness: with two formats and two architectures, the element at
flat index `1 * 2 + 0` is the second format paired with the first
architecture. -/
theorem C9_request_builder_witness :
    (build_image_requests ["qcow2", "raw"] ["x", "y"]
        [⟨"u", none⟩])[1 * (["x", "y"] : List String).length + 0]? =
      some (ImageRequest.mk ((["x", "y"] : List String).getD 0 "")
        ((["qcow2", "raw"] : List String).getD 1 "") [⟨"u", none⟩]) :=
  (C9_request_builder ["qcow2", "raw"] ["x", "y"] [⟨"u", none⟩]).2.2.1 1 0
    (by decide) (by decide)

/-! ## Serialization shape lemmas -/

theorem mapExcept_ok_mem {α β ε : Type} (f : α → Except ε β) :
    ∀ (l : List α) (bs : List β), mapExcept f l = .ok bs →
      ∀ b ∈ bs, ∃ a ∈ l, f a = .ok b := by
  intro l
  induction l with
  | nil =>
    intro bs h b hb
    unfold mapExcept at h
    cases h
    cases hb
  | cons a rest ih =>
    intro bs h b hb
    unfold mapExcept at h
    cases hfa : f a with
    | error e => rw [hfa] at h; cases h
    | ok b0 =>
      rw [hfa] at h
      cases hrest : mapExcept f rest with
      | error e => rw [hrest] at h; cases h
      | ok tl =>
        rw [hrest] at h
        cases h
        rcases List.mem_cons.mp hb with he | hm
        · exact ⟨a, List.mem_cons_self a rest, he ▸ hfa⟩
        · obtain ⟨a', ha', hfa'⟩ := ih tl hrest b hm
          exact ⟨a', List.mem_cons_of_mem _ ha', hfa'⟩

theorem repoShape_of_as_dict (r : Repository) (arch : String)
    (kvs : List (String × Json)) (h : r.as_dict arch = .ok kvs) :
    repoShape kvs = true := by
  unfold Repository.as_dict substituteTemplate at h
  cases hs : substChars (archMapping arch) r.baseurl.data with
  | error e => rw [hs] at h; cases h
  | ok l =>
    rw [hs] at h
    simp only [Except.map] at h
    cases h
    cases pyTruthy r.gpgkey <;> simp [repoShape]

theorem imageReqShape_of_as_dict (ir : ImageRequest) (j : Json)
    (h : ir.as_dict = .ok j) : imageReqShape j = true := by
  unfold ImageRequest.as_dict at h
  cases hm : mapExcept (fun rp => rp.as_dict ir.architecture)
      ir.repositories with
  | error e => rw [hm] at h; cases h
  | ok repos =>
    rw [hm] at h
    simp only [Except.map] at h
    cases h
    simp only [imageReqShape]
    rw [List.all_eq_true]
    intro x hx
    rw [List.mem_map] at hx
    obtain ⟨kvs, hkvs, hx⟩ := hx
    obtain ⟨rp, _, hrp⟩ :=
      mapExcept_ok_mem (fun rp => rp.as_dict ir.architecture)
        ir.repositories repos hm kvs hkvs
    subst hx
    simpa using repoShape_of_as_dict rp ir.architecture kvs hrp

theorem composeReqShape_of_as_dict (cr : ComposeRequest) (j : Json)
    (h : cr.as_dict = .ok j) : composeReqShape j = true := by
  unfold ComposeRequest.as_dict at h
  cases hm : mapExcept ImageRequest.as_dict cr.image_requests with
  | error e => rw [hm] at h; cases h
  | ok imgs =>
    rw [hm] at h
    simp only [Except.map] at h
    cases h
    simp only [composeReqShape]
    rw [List.all_eq_true]
    intro x hx
    obtain ⟨ir, _, hir⟩ :=
      mapExcept_ok_mem ImageRequest.as_dict cr.image_requests imgs hm x hx
    simpa using imageReqShape_of_as_dict ir x hir

/-- C5: `ComposeRequest` serialization is deterministic — requests with
equal field values produce byte-identical JSON text — and every
successfully serialized request has exactly the shape
`\x7bdistribution, koji:\x7bserver\x7d,
image_requests:[\x7barchitecture, image_type,
repositories:[\x7bbaseurl[, gpgkey]\x7d]\x7d]\x7d`, with no other keys. -/
theorem C5_serialization_deterministic_shape :
    (∀ r s : ComposeRequest, r.distribution = s.distribution →
      r.image_requests = s.image_requests → r.koji = s.koji →
      r.to_json = s.to_json) ∧
    (∀ (r : ComposeRequest) (j : Json), r.as_dict = .ok j →
      composeReqShape j = true) := by
  constructor
  · intro r s h1 h2 h3
    obtain ⟨rd, ri, rk⟩ := r
    obtain ⟨sd, si, sk⟩ := s
    simp only at h1 h2 h3
    subst h1; subst h2; subst h3
    rfl
  · exact composeReqShape_of_as_dict

/-- C5, witness: a concrete one-image request serializes with the
required shape (and trivially deterministically). -/
theorem C5_serialization_deterministic_shape_witness :
    composeReqShape (Json.obj
      [("distribution", .str "fedora-32"),
       ("koji", .obj [("server", .str "https://k/")]),
       ("image_requests", .arr
         [.obj [("architecture", .str "x86_64"),
                ("image_type", .str "qcow2"),
                ("repositories", .arr
                  [.obj [("baseurl", .str "http://e/x86_64/os/")]])]])]) =
      true :=
  C5_serialization_deterministic_shape.2
    ⟨"fedora-32", [⟨"x86_64", "qcow2", [⟨"http://e/$arch/os/", none⟩]⟩],
      "https://k/"⟩
    (Json.obj
      [("distribution", .str "fedora-32"),
       ("koji", .obj [("server", .str "https://k/")]),
       ("image_requests", .arr
         [.obj [("architecture", .str "x86_64"),
                ("image_type", .str "qcow2"),
                ("repositories", .arr
                  [.obj [("baseurl", .str "http://e/x86_64/os/")]])]])])
    (by simp [ComposeRequest.as_dict, ImageRequest.as_dict,
      Repository.as_dict, mapExcept, substituteTemplate, substChars,
      takeIdent, isIdentCont, isIdentStart, archMapping, pyTruthy,
      Except.map, lbrace, rbrace, Except.bind, bind, pure, Except.pure])

/-! ## Template substitution lemmas -/

theorem except_map_map {ε α β γ : Type} (e : Except ε α) (f : α → β)
    (g : β → γ) : (e.map f).map g = e.map (fun x => g (f x)) := by
  cases e <;> rfl

theorem except_map_id {ε α : Type} (e : Except ε α) :
    e.map (fun x => x) = e := by
  cases e <;> rfl

theorem substChars_cons_not_dollar (m : String → Option String) (c : Char)
    (rest : List Char) (hc : c ≠ '$') :
    substChars m (c :: rest) = (substChars m rest).map (fun t => c :: t) := by
  rw [substChars.eq_def]
  simp [hc]

theorem substChars_lit_chunk (m : String → Option String) :
    ∀ (pre rest : List Char), '$' ∉ pre →
      substChars m (pre ++ rest) =
        (substChars m rest).map (fun t => pre ++ t) := by
  intro pre
  induction pre with
  | nil =>
    intro rest _
    simp [except_map_id]
  | cons c cs ih =>
    intro rest hnd
    have hc : c ≠ '$' := fun he => hnd (he ▸ List.mem_cons_self c cs)
    have hcs : '$' ∉ cs := fun hm => hnd (List.mem_cons_of_mem _ hm)
    rw [List.cons_append, substChars_cons_not_dollar m c _ hc, ih rest hcs,
      except_map_map]
    rfl

theorem isIdentCont_of_isIdentStart {c : Char}
    (h : isIdentStart c = true) : isIdentCont c = true := by
  unfold isIdentCont
  rw [h]
  rfl

theorem validIdent_spec (s : String) (h : validIdent s = true) :
    s.data ≠ [] ∧ isIdentStart (s.data.headD ' ') = true ∧
      ∀ c ∈ s.data, isIdentCont c = true := by
  unfold validIdent at h
  cases hd : s.data with
  | nil => rw [hd] at h; cases h
  | cons c cs =>
    rw [hd] at h
    simp only [Bool.and_eq_true, List.all_eq_true] at h
    refine ⟨by simp, by simp [h.1], ?_⟩
    intro x hx
    rcases List.mem_cons.mp hx with he | hm
    · exact he ▸ isIdentCont_of_isIdentStart h.1
    · exact h.2 x hm

theorem takeIdent_append (idc : List Char) (b : Char) (rest : List Char)
    (hall : ∀ c ∈ idc, isIdentCont c = true)
    (hb : isIdentCont b = false) :
    takeIdent (idc ++ b :: rest) = (idc, b :: rest) := by
  induction idc with
  | nil => simp [takeIdent, hb]
  | cons c cs ih =>
    have hc : isIdentCont c = true := hall c (List.mem_cons_self c cs)
    have hcs : ∀ x ∈ cs, isIdentCont x = true :=
      fun x hx => hall x (List.mem_cons_of_mem _ hx)
    simp [takeIdent, hc, ih hcs]

theorem string_mk_data (s : String) : String.mk s.data = s := rfl

theorem substChars_braced (m : String → Option String) (name : String)
    (rest : List Char) (hval : validIdent name = true) :
    substChars m ('$' :: lbrace :: (name.data ++ rbrace :: rest)) =
      match m name with
      | none => .error (.keyError name)
      | some v => (substChars m rest).map (fun t => v.data ++ t) := by
  obtain ⟨hne, hstart, hall⟩ := validIdent_spec name hval
  have hrb : isIdentCont rbrace = false := by decide
  have htake : takeIdent (name.data ++ rbrace :: rest) =
      (name.data, rbrace :: rest) :=
    takeIdent_append name.data rbrace rest hall hrb
  have hlb : ¬ (lbrace = '$') := by decide
  rw [substChars.eq_def]
  simp [htake, hne, hstart, hlb, string_mk_data]
  intro hcontra
  rw [← List.headD_eq_head?] at hcontra
  rw [hstart] at hcontra
  cases hcontra

theorem substChars_render (a : String) :
    ∀ segs : List TemplateSeg, (∀ seg ∈ segs, segWF seg = true) →
      (∀ n, TemplateSeg.var n ∈ segs → n = "arch") →
      substChars (archMapping a) (renderChars segs) =
        .ok (substSpecChars a segs) := by
  intro segs
  induction segs with
  | nil =>
    intro _ _
    simp [renderChars, substSpecChars, substChars]
  | cons seg rest ih =>
    intro hwf harch
    have hwfr : ∀ s ∈ rest, segWF s = true :=
      fun s hs => hwf s (List.mem_cons_of_mem _ hs)
    have harchr : ∀ n, TemplateSeg.var n ∈ rest → n = "arch" :=
      fun n hn => harch n (List.mem_cons_of_mem _ hn)
    have hrec := ih hwfr harchr
    cases seg with
    | lit s =>
      have hnd : '$' ∉ s.data := by
        have := hwf (.lit s) (List.mem_cons_self _ _)
        simpa [segWF, List.contains] using this
      unfold renderChars
      rw [List.flatMap_cons]
      show substChars (archMapping a) (s.data ++ renderChars rest) = _
      rw [substChars_lit_chunk (archMapping a) s.data (renderChars rest) hnd,
        hrec]
      rfl
    | var n =>
      have hn : n = "arch" := harch n (List.mem_cons_self _ _)
      subst hn
      have hval : validIdent "arch" = true := by decide
      unfold renderChars
      rw [List.flatMap_cons]
      have hshape : renderSegChars (TemplateSeg.var "arch") ++
          rest.flatMap renderSegChars =
          '$' :: lbrace :: ("arch".data ++ rbrace :: rest.flatMap renderSegChars) := by
        simp [renderSegChars]
      rw [hshape, substChars_braced (archMapping a) "arch" _ hval]
      have hm : archMapping a "arch" = some a := rfl
      rw [hm]
      show ((substChars (archMapping a) (renderChars rest)).map
        (fun t => a.data ++ t)) = _
      rw [hrec]
      rfl

/-- C7: resolving a repository whose baseurl template consists of literal
text (holding no `$`) and `$\x7barch\x7d` placeholders only substitutes
the architecture for every placeholder and changes nothing else,
producing a dict with only the `baseurl` key when `gpgkey` is absent;
while a template referencing a placeholder other than `arch` makes
`as_dict` fail with a `TemplateError` (a `KeyError` naming the unknown
placeholder). -/
theorem C7_repository_resolve (a : String) :
    (∀ segs : List TemplateSeg, (∀ seg ∈ segs, segWF seg = true) →
      (∀ n, TemplateSeg.var n ∈ segs → n = "arch") →
      Repository.as_dict ⟨renderTemplate segs, none⟩ a =
        .ok [("baseurl", .str (substSpecStr a segs))]) ∧
    (∀ (pre : List Char) (name : String) (post : List Char)
        (g : Option String), '$' ∉ pre → validIdent name = true →
      name ≠ "arch" →
      Repository.as_dict
        ⟨String.mk (pre ++ '$' :: lbrace :: (name.data ++ rbrace :: post)),
         g⟩ a = .error (.keyError name)) := by
  constructor
  · intro segs hwf harch
    unfold Repository.as_dict substituteTemplate renderTemplate
    show (((substChars (archMapping a) (renderChars segs)).map
      String.mk).map _) = _
    rw [substChars_render a segs hwf harch]
    rfl
  · intro pre name post g hpre hval hname
    unfold Repository.as_dict substituteTemplate
    show (((substChars (archMapping a)
      (pre ++ '$' :: lbrace :: (name.data ++ rbrace :: post))).map
        String.mk).map _) = _
    rw [substChars_lit_chunk (archMapping a) pre _ hpre,
      substChars_braced (archMapping a) name post hval]
    have hm : archMapping a name = none := by
      unfold archMapping
      rw [if_neg hname]
    rw [hm]
    rfl

/-- C7, witness: the template `http://e/$\x7barch\x7d/os/` resolves for
architecture `x86_64` into the substituted URL with only the `baseurl`
key, and the template `http://e/$\x7bfoo\x7d/` fails with a `KeyError`
for `foo`. -/
theorem C7_repository_resolve_witness :
    Repository.as_dict
      ⟨renderTemplate [.lit "http://e/", .var "arch", .lit "/os/"], none⟩
      "x86_64" =
      .ok [("baseurl", .str (substSpecStr "x86_64"
        [.lit "http://e/", .var "arch", .lit "/os/"]))] ∧
    Repository.as_dict
      ⟨String.mk ("http://e/".data ++
        '$' :: lbrace :: ("foo".data ++ rbrace :: "/".data)), none⟩
      "x86_64" = .error (.keyError "foo") :=
  ⟨(C7_repository_resolve "x86_64").1
      [.lit "http://e/", .var "arch", .lit "/os/"]
      (by decide)
      (by intro n hn; simp at hn; exact hn),
   (C7_repository_resolve "x86_64").2 "http://e/".data "foo" "/".data none
      (by decide) (by decide) (by decide)⟩

end KojiOsbuild
